import Mathlib

/-!
Verification of the scrabble.rs word-set engine against its specification.

Shallow embedding conventions:
* alphabet symbols are their indices `0..25` (`'a'..'z'`); where actual
  character codes matter (the pattern parser/unparser) we use Unicode code
  points as `Nat` (`97 = 'a'`, `45 = '-'`, `46 = '.'`, `91 = '['`, `93 = ']'`,
  `33 = '!'`), and strings are lists of code points;
* a `Letter` (`Letter([bool; 26])` in `letter/mod.rs` and `word/mod.rs`) is a
  list of 26 booleans;
* a trie node (`trie_ptr::Trie { is_end, children: [Option<Box<Trie>>; 26] }`,
  also the shape used by the generic `TrieNode` algorithms of
  `trie/node_trait.rs`) is an inductive tree whose children are a 26-slot list
  of optional subtrees; the source's loops over `'a'..='z'` indexing the
  children array are embedded as walks over the 26-slot lists;
* fallible code returns `Option` (`none` = parse error or panic);
* the `dawg/ptrs.rs` representation uses `Rc`/`Weak`; it is embedded as an
  explicit heap of nodes addressed by integer ids, with strong and weak
  reference counts, where dropping the last strong reference deallocates the
  record (weak upgrades then fail, as for `Rc`).
-/

namespace Scrabble

/-- A pattern position: 26 booleans, one per symbol (`Letter([bool; 26])`). -/
abbrev Letter := List Bool

/-- `Letter::all()`: every symbol set. -/
def Letter.allL : Letter := List.replicate 26 true

/-- A singleton letter accepting only symbol `i` (`Letter::try_from_alpha`). -/
def Letter.singL (i : Nat) : Letter := (List.replicate 26 false).set i true

/-- `Letter::indices` / the ascending `Iterator for Letter`: the indices of the
set symbols, in ascending order. -/
def letterIndices (l : Letter) : List Nat :=
  (List.range 26).filter (fun i => l.getD i false)

/-- A trie node: `is_end` flag plus 26 optional children
(`trie_ptr::Trie`, and the node shape the `TrieNode` trait algorithms act on). -/
inductive Trie where
  | node (isEnd : Bool) (children : List (Option Trie))

/-- The `is_end` field. -/
def Trie.isEnd : Trie → Bool
  | .node e _ => e

/-- The `children` field. -/
def Trie.children : Trie → List (Option Trie)
  | .node _ cs => cs

/-- `TrieNode::empty` / `Trie::empty`: not accepting, no children. -/
def Trie.emptyT : Trie := .node false (List.replicate 26 none)

/-- `set_end`. -/
def Trie.setEnd : Trie → Bool → Trie
  | .node _ cs, e => .node e cs

/-- `get_child(c)`: slot `c` of the children array (out of range = `None`). -/
def Trie.getChild (t : Trie) (c : Nat) : Option Trie := t.children.getD c none

/-- `set_child(c, other)`. -/
def Trie.setChild : Trie → Nat → Option Trie → Trie
  | .node e cs, c, v => .node e (cs.set c v)

/-- `TrieNode::from_word` (`trie/node_trait.rs:36`): an empty node; if the word
has a head letter, build one sub-node from the tail and attach it under every
symbol of the letter, else set the end flag. -/
def fromWordT : List Letter → Trie
  | [] => Trie.emptyT.setEnd true
  | l :: ls =>
    let sub := fromWordT ls
    (letterIndices l).foldl (fun node c => node.setChild c (some sub)) Trie.emptyT

mutual

/-- `TrieNode::diff` (`trie/node_trait.rs:146`): a fresh empty tree, whose end
flag is set from `tree.is_end() & !other.is_end()` — note the source reads the
fresh empty tree's own flag, not `self`'s — then per symbol the child is the
recursive diff (both children present), a copy of `self`'s child (`other` has
none), or absent. -/
def diffT : Trie → Trie → Trie
  | .node _ cs, u => .node (Trie.emptyT.isEnd && !u.isEnd) (diffKids cs u.children)

/-- The `for c in 'a'..='z'` loop of `diff`, as a walk over the 26 slots of
`self`'s children with `other.get_child(c)` alongside. -/
def diffKids : List (Option Trie) → List (Option Trie) → List (Option Trie)
  | [], _ => []
  | c :: r, [] =>
    (match c with
      | some s0 => some s0
      | none => none) :: diffKids r []
  | c :: r, d :: q =>
    (match c, d with
      | some s0, some s1 => some (diffT s0 s1)
      | some s0, none => some s0
      | none, _ => none) :: diffKids r q

end

mutual

/-- `TrieNode::has_all` (`trie/node_trait.rs:69`): `self.is_end()` and, for
every symbol with a child in `other`, both children exist and recursively
`has_all` (`get_child(c).zip(...).map_or(false, ...)`). -/
def hasAllT : Trie → Trie → Bool
  | .node e cs, u => e && hasAllKids cs u.children

/-- The `other.chars().all(...)` loop of `has_all` over the child slots. -/
def hasAllKids : List (Option Trie) → List (Option Trie) → Bool
  | _, [] => true
  | [], d :: q => d.isNone && hasAllKids [] q
  | c :: r, d :: q =>
    (match d with
      | some s1 =>
        match c with
        | some s0 => hasAllT s0 s1
        | none => false
      | none => true) && hasAllKids r q

end

mutual

/-- `Trie::diff_assign` (`trie_ptr/mod.rs:292`): `self.is_end &= !trie.is_end`,
then for every slot where both tries have a child, recursively diff it;
children of `self` that `trie` lacks are left untouched. -/
def diffAssignP : Trie → Trie → Trie
  | .node e cs, .node e2 cs2 => .node (e && !e2) (diffAssignKids cs cs2)

/-- The zipped children loop of `diff_assign` (`zip` stops at the shorter
list; remaining children of `self` stay unchanged). -/
def diffAssignKids : List (Option Trie) → List (Option Trie) → List (Option Trie)
  | [], _ => []
  | c :: r, [] => c :: r
  | c :: r, d :: q =>
    (match c, d with
      | some sn, some tn => some (diffAssignP sn tn)
      | _, _ => c) :: diffAssignKids r q

end

/-- `trie_ptr::Trie::word` (`trie_ptr/mod.rs:99`): the empty word makes a
childless accepting node; otherwise one sub-trie for the tail is attached
under every symbol of the head letter (`array::from_fn`). -/
def trieWordP : List Letter → Trie
  | [] => .node true (List.replicate 26 none)
  | l :: ls =>
    let sub := trieWordP ls
    .node false ((List.range 26).map fun i => if l.getD i false then some sub else none)

mutual

/-- `trie_ptr::Trie::is_empty` (`trie_ptr/mod.rs:129`): not an end, and every
present child is recursively empty (`map_or(true, ...)`). -/
def Trie.isEmptyP : Trie → Bool
  | .node e cs => !e && isEmptyKids cs

/-- The `children.iter().all(...)` loop of `trie_ptr::Trie::is_empty`
(`map_or(true, |n| n.is_empty())` per slot, split by constructor). -/
def isEmptyKids : List (Option Trie) → Bool
  | [] => true
  | none :: rest => isEmptyKids rest
  | some n :: rest => Trie.isEmptyP n && isEmptyKids rest

end

mutual

/-- The number of set `is_end` flags in a trie (the number of words it
contains); the measure used to show that the `trie_ptr` iterator's
enumeration is exhaustive. -/
def endCount : Trie → Nat
  | .node e cs => (if e then 1 else 0) + endCountKids cs

/-- `endCount` over a child list. -/
def endCountKids : List (Option Trie) → Nat
  | [] => 0
  | none :: rest => endCountKids rest
  | some t :: rest => endCount t + endCountKids rest

end

mutual

/-- `impl Iterator for trie_ptr::Trie`, `next(&mut self)`
(`trie_ptr/mod.rs:168`): when `is_end` is set, clear it *in place* and yield
the empty string; otherwise search the children in ascending order with
`find_map`, recursively pulling from each child (children mutated in place)
and prefixing the child's symbol to the produced string.  The mutated trie is
returned alongside the produced value; strings are lists of symbol indices. -/
def trieNext : Trie → Option (List Nat) × Trie
  | .node e cs =>
    if e then (some [], .node false cs)
    else
      match trieNextKids 0 cs with
      | (r, cs2) => (r, .node e cs2)

/-- The `children.iter_mut().enumerate().find_map(..)` loop of `next`. -/
def trieNextKids : Nat → List (Option Trie) → Option (List Nat) × List (Option Trie)
  | _, [] => (none, [])
  | i, none :: rest =>
    let (r, rest2) := trieNextKids (i+1) rest
    (r, none :: rest2)
  | i, some t :: rest =>
    match trieNext t with
    | (some s, t2) => (some (i :: s), some t2 :: rest)
    | (none, t2) =>
      let (r, rest2) := trieNextKids (i+1) rest
      (r, some t2 :: rest2)

end

/-- Pull from the `trie_ptr` iterator at most `fuel` times, stopping at the
first `None`; returns the produced strings and the final (mutated) trie. -/
def runNext : Nat → Trie → List (List Nat) × Trie
  | 0, t => ([], t)
  | f+1, t =>
    match trieNext t with
    | (none, t2) => ([], t2)
    | (some s, t2) =>
      match runNext f t2 with
      | (ss, tf) => (s :: ss, tf)

/-- Induction motive (trie side) for the iterator lemmas: an exhausted
iterator leaves the trie unchanged with no end flags, and every produced
string consumes exactly one end flag. -/
abbrev nextM1 (t : Trie) : Prop :=
  ((trieNext t).1 = none → (trieNext t).2 = t ∧ endCount t = 0) ∧
  (∀ (s : List Nat) (t2 : Trie), trieNext t = (some s, t2) → endCount t = endCount t2 + 1)

/-- Induction motive (children side) for the iterator lemmas. -/
abbrev nextM2 (i : Nat) (cs : List (Option Trie)) : Prop :=
  ((trieNextKids i cs).1 = none → (trieNextKids i cs).2 = cs ∧ endCountKids cs = 0) ∧
  (∀ (s : List Nat) (cs2 : List (Option Trie)), trieNextKids i cs = (some s, cs2) →
    endCountKids cs = endCountKids cs2 + 1)

/-- Induction motive (trie side) relating `is_empty` to the end-flag count. -/
abbrev emptyM1 (t : Trie) : Prop := Trie.isEmptyP t = true ↔ endCount t = 0

/-- Induction motive (children side) relating `is_empty` to the count. -/
abbrev emptyM2 (cs : List (Option Trie)) : Prop := isEmptyKids cs = true ↔ endCountKids cs = 0

/-! ### The generic `dfs` / `strings` iterators (`trie/node_trait.rs:162,197,235`) -/

/-- One call of `DepthFirstIterator::next` (`trie/node_trait.rs:237`): the top
stack frame holds a node and the remaining symbol range; `left.next()` takes
the next symbol, and if the node has a child there the child is pushed (with a
fresh full range) and yielded with its symbol; otherwise — range exhausted
*or no child at that symbol* — the whole frame is popped and yielded with no
symbol.  The stack top is the list head. -/
def dfsStep : List (Trie × List Nat) → Option ((Trie × Option Nat) × List (Trie × List Nat))
  | [] => none
  | (node, left) :: rest =>
    match left.head?.bind (fun c => (node.getChild c).map fun sub => (sub, c)) with
    | some (sub, c) => some ((sub, some c), (sub, List.range 26) :: (node, left.tail) :: rest)
    | none => some ((node, none), rest)

/-- Run the depth-first iterator to exhaustion, collecting its events.  The
fuel only bounds the number of steps; it is chosen large enough for every
concrete input it is applied to. -/
def runDfs : Nat → List (Trie × List Nat) → List (Trie × Option Nat)
  | 0, _ => []
  | f+1, st =>
    match dfsStep st with
    | none => []
    | some (ev, st2) => ev :: runDfs f st2

/-- The `scan` stage of `TrieNode::strings` (`trie/node_trait.rs:198`): the
state is the running prefix; a `Some(c)` movement pushes `c` and yields
`Some(prefix)` when the entered node is accepting (else `Some(None)`); a
`None` movement makes the closure return `None`, which — by the semantics of
Rust's `Iterator::scan` — terminates the whole scan iterator at the first
post-order (pop) event. -/
def scanStringsGo : List (Trie × Option Nat) → List Nat → List (Option (List Nat))
  | [], _ => []
  | (node, mv) :: rest, s =>
    match mv with
    | some c => (if node.isEnd then some (s ++ [c]) else none) :: scanStringsGo rest (s ++ [c])
    | none => []

/-- `TrieNode::strings` (`trie/node_trait.rs:197`): `dfs().scan("", ..).flatten()`,
with strings as lists of symbol indices. -/
def stringsList (t : Trie) : List (List Nat) :=
  (scanStringsGo (runDfs 1000 [(t, List.range 26)]) []).filterMap id

/-! ### The pattern parser (`letter/parse.rs`, `word/parse.rs`), on code points -/

/-- `char::is_ascii_lowercase`. -/
def isLowerC (c : Nat) : Bool := 97 ≤ c && c ≤ 122

/-- nom `anychar`. -/
def anycharP : List Nat → Option (Nat × List Nat)
  | [] => none
  | c :: r => some (c, r)

/-- `parse_lower_char` (`letter/parse.rs:41`): `verify(anychar, is_ascii_lowercase)`. -/
def parseLowerChar (i : List Nat) : Option (Nat × List Nat) :=
  match anycharP i with
  | some (c, r) => if isLowerC c then some (c, r) else none
  | none => none

/-- nom `char(c)` / one-character `tag`. -/
def charTok (c : Nat) (i : List Nat) : Option (Nat × List Nat) :=
  match i with
  | d :: r => if d = c then some (d, r) else none
  | [] => none

/-- `parse_dot_letter` (`letter/parse.rs:45`). -/
def parseDotLetter (i : List Nat) : Option (Letter × List Nat) :=
  (charTok 46 i).map fun x => (Letter.allL, x.2)

/-- `Letter::try_from_alpha` (`letter/parse.rs:20`). -/
def tryFromAlpha (c : Nat) : Option Letter :=
  if isLowerC c then some (Letter.singL (c - 97)) else none

/-- `parse_char_letter` (`letter/parse.rs:50`): `map_res(parse_lower_char, try_from_alpha)`. -/
def parseCharLetter (i : List Nat) : Option (Letter × List Nat) :=
  match parseLowerChar i with
  | some (c, r) => (tryFromAlpha c).map fun l => (l, r)
  | none => none

/-- `parse_single_char_range` (`letter/parse.rs:54`). -/
def parseSingleCharRange (i : List Nat) : Option ((Nat × Nat) × List Nat) :=
  (parseLowerChar i).map fun x => ((x.1, x.1), x.2)

/-- `opt(parse_lower_char)`. -/
def optLower (i : List Nat) : Option (Option Nat × List Nat) :=
  match parseLowerChar i with
  | some (c, r) => some (some c, r)
  | none => some (none, i)

/-- `parse_multi_char_range` (`letter/parse.rs:59`): optional start, a dash,
optional end; missing endpoints default to `'a'` / `'z'`. -/
def parseMultiCharRange (i : List Nat) : Option ((Nat × Nat) × List Nat) :=
  match optLower i with
  | some (st, r1) =>
    match charTok 45 r1 with
    | some (_, r2) =>
      match optLower r2 with
      | some (en, r3) => some ((st.getD 97, en.getD 122), r3)
      | none => none
    | none => none
  | none => none

/-- `parse_char_range` (`letter/parse.rs:66`): `alt((multi, single))`. -/
def parseCharRange (i : List Nat) : Option ((Nat × Nat) × List Nat) :=
  (parseMultiCharRange i).orElse fun _ => parseSingleCharRange i

/-- Flattening a `RangeInclusive<char>` `s..=e` (empty when `s > e`). -/
def rangeChars (p : Nat × Nat) : List Nat := List.range' p.1 (p.2 + 1 - p.1)

/-- `Letter::try_from_iter` (`letter/parse.rs:29`): reject any non-lowercase
character, set a mask bit per character. -/
def tryFromIter (cs : List Nat) : Option Letter :=
  if cs.all isLowerC then
    some (cs.foldl (fun m c => m.set (c - 97) true) (List.replicate 26 false))
  else none

/-- The repetition loop of nom `many1(parse_char_range)` after the first
element: stop (successfully) at the first parse failure; a successful parse
that consumes nothing is nom's infinite-loop error.  Fuel decreases every
step; consumption makes `input.length + 1` always sufficient. -/
def many0RangesGo : Nat → List Nat → Option (List (Nat × Nat) × List Nat)
  | 0, _ => none
  | f+1, i =>
    match parseCharRange i with
    | none => some ([], i)
    | some (v, r) =>
      if r.length < i.length then
        (many0RangesGo f r).map fun x => (v :: x.1, x.2)
      else none

/-- nom `many1(parse_char_range)`: the first element must parse. -/
def many1Ranges (i : List Nat) : Option (List (Nat × Nat) × List Nat) :=
  match parseCharRange i with
  | none => none
  | some (v, r) =>
    if r.length < i.length then
      (many0RangesGo (r.length + 1) r).map fun x => (v :: x.1, x.2)
    else none

/-- `parse_group_letter` (`letter/parse.rs:70`):
`map_res(many1(parse_char_range), |ranges| try_from_iter(flatten))`. -/
def parseGroupLetter (i : List Nat) : Option (Letter × List Nat) :=
  match many1Ranges i with
  | some (rs, r) => (tryFromIter (rs.map rangeChars).flatten).map fun l => (l, r)
  | none => none

/-- `parse_letter` (`letter/parse.rs:76`): `alt((dot, char, delimited('[', group, ']')))`. -/
def parseLetterD (i : List Nat) : Option (Letter × List Nat) :=
  (parseDotLetter i).orElse fun _ =>
    (parseCharLetter i).orElse fun _ =>
      match charTok 91 i with
      | some (_, r1) =>
        match parseGroupLetter r1 with
        | some (l, r2) =>
          match charTok 93 r2 with
          | some (_, r3) => some (l, r3)
          | none => none
        | none => none
      | none => none

/-- `Letter::from_str` (`letter/parse.rs:84`): `parse_letter(s).finish()`,
keeping the letter and discarding any unconsumed remainder. -/
def letterFromStr (i : List Nat) : Option Letter := (parseLetterD i).map (·.1)

/-- The loop of nom `many0(parse_letter)` (same scheme as `many0RangesGo`). -/
def many0LettersGo : Nat → List Nat → Option (List Letter × List Nat)
  | 0, _ => none
  | f+1, i =>
    match parseLetterD i with
    | none => some ([], i)
    | some (v, r) =>
      if r.length < i.length then
        (many0LettersGo f r).map fun x => (v :: x.1, x.2)
      else none

/-- `parse_word` (`word/parse.rs:6`): `many0(parse_letter)` collected into a word. -/
def parseWordD (i : List Nat) : Option (List Letter × List Nat) :=
  many0LettersGo (i.length + 1) i

/-- `Word::from_str` (`word/parse.rs:10`): `parse_word(s).finish()`, keeping
the word and discarding any unconsumed remainder. -/
def wordFromStrD (i : List Nat) : Option (List Letter) := (parseWordD i).map (·.1)

/-! ### The pattern unparser (`letter/unparse.rs`) -/

/-- The state-machine core of `combine_into_ranges` (`letter/unparse.rs:6`):
extend the current range when the next number is consecutive, else emit it and
restart. -/
def combineAux : (Nat × Nat) → List Nat → List (Nat × Nat)
  | _, [] => []
  | (s, e), n :: rest =>
    if e + 1 = n then combineAux (s, n) rest else (s, e) :: combineAux (n, n) rest

/-- `combine_into_ranges` (`letter/unparse.rs:6`).  The closure move-captures
the option `range`, which is `Copy`, so the trailing `.chain(range)` appends
the *initial* value `(first, first)` — the closure's accumulated final range
is never emitted. -/
def combineIntoRanges : List Nat → List (Nat × Nat)
  | [] => []
  | n :: rest => combineAux (n, n) rest ++ [(n, n)]

/-- `unparse_dot_letter` (`letter/unparse.rs:32`). -/
def unparseDotLetter (l : Letter) : Option (List Nat) :=
  if l = Letter.allL then some [46] else none

/-- `unparse_char_letter` (`letter/unparse.rs:41`): errors unless exactly one
symbol is set, else that symbol's character. -/
def unparseCharLetter (l : Letter) : Option (List Nat) :=
  match letterIndices l with
  | [i] => some [97 + i]
  | _ => none

/-- `unparse_char_pair` (`letter/unparse.rs:55`), on character codes. -/
def unparseCharPair (p : Nat × Nat) : List Nat :=
  if p.1 = p.2 then [p.1] else [p.1, 45, p.2]

/-- `unparse_group_letter` (`letter/unparse.rs:63`). -/
def unparseGroupLetter (l : Letter) : List Nat :=
  91 :: ((combineIntoRanges (letterIndices l)).map
      (fun p => unparseCharPair (97 + p.1, 97 + p.2))).flatten ++ [93]

/-- `unparse_letter` (`letter/unparse.rs:71`): dot, else single char, else
group (which is infallible). -/
def unparseLetterD (l : Letter) : List Nat :=
  ((unparseDotLetter l).orElse fun _ => unparseCharLetter l).getD (unparseGroupLetter l)

/-- The letter `{b,c,d,f}` (the spec's own coalescing example). -/
def bcdfLetter : Letter :=
  ((((List.replicate 26 false).set 1 true).set 2 true).set 3 true).set 5 true

/-! ### The minimized-graph representation (`dawg/ptrs.rs`)

`Rc`/`Weak` ownership is embedded as an explicit heap: nodes are records
addressed by integer ids, with per-id strong and weak reference counts.
Dropping the last strong reference deallocates the record (its slot becomes
`none`), recursively dropping the strong child references it held; a weak
reference upgrade succeeds only while the strong count is positive, and
`Rc::get_mut` yields exclusive access only when the strong count is 1 *and*
the weak count is 0 (both per `Rc`'s documented semantics).  Functions that
panic in Rust return `none`. -/

/-- A `dawg::ptrs::Node`: the weak `end_node` reference, 27 child slots
(26 symbols + the shared terminal slot), and the weak parent set (kept in
insertion order; iteration visits the still-alive entries in that order). -/
structure DawgNode where
  endNode : Nat
  children : List (Option Nat)
  parents : List Nat
deriving DecidableEq

/-- The reference-counted heap. -/
structure Heap where
  nodes : List (Option DawgNode)
  strong : List Nat
  weak : List Nat
deriving DecidableEq

/-- The heap before any allocation. -/
def initHeap : Heap := ⟨[], [], []⟩

/-- Read a node record (deallocated or unallocated ids read as `none`). -/
def lookupNode (h : Heap) (i : Nat) : Option DawgNode := h.nodes.getD i none

/-- The strong reference count of id `i`. -/
def strongOf (h : Heap) (i : Nat) : Nat := h.strong.getD i 0

/-- The weak reference count of id `i`. -/
def weakOf (h : Heap) (i : Nat) : Nat := h.weak.getD i 0

/-- Overwrite a strong count. -/
def setStrong (h : Heap) (i n : Nat) : Heap := { h with strong := h.strong.set i n }

/-- `Rc::clone`: one more strong reference. -/
def incStrong (h : Heap) (i : Nat) : Heap := setStrong h i (strongOf h i + 1)

/-- One more weak reference to `i` (`Rc::downgrade` / storing a `Weak`). -/
def incWeak (h : Heap) (i : Nat) : Heap := { h with weak := h.weak.set i (weakOf h i + 1) }

/-- One weak reference to `i` dropped. -/
def decWeak (h : Heap) (i : Nat) : Heap := { h with weak := h.weak.set i (weakOf h i - 1) }

/-- Deallocate the record at `i` (the value inside the `Rc` is dropped). -/
def removeNode (h : Heap) (i : Nat) : Heap := { h with nodes := h.nodes.set i none }

/-- `Rc::new`: allocate a record with strong count 1 and weak count 0. -/
def allocNode (h : Heap) (n : DawgNode) : Heap × Nat :=
  (⟨h.nodes ++ [some n], h.strong ++ [1], h.weak ++ [0]⟩, h.nodes.length)

/-- Drop one strong reference to each id on the worklist; when a count
reaches zero the record is deallocated, its `end_node` and parent weak
references are released, and its strong child references are pushed onto the
worklist (the recursive `Rc` drop).  Fuel bounds the cascade; it is chosen
large enough for every concrete heap this is run on, and the frame lemmas
below hold for every fuel value. -/
def dropMany : Nat → Heap → List Nat → Heap
  | 0, h, _ => h
  | _+1, h, [] => h
  | f+1, h, i :: rest =>
    match strongOf h i with
    | 0 => dropMany f h rest
    | 1 =>
      match lookupNode h i with
      | none => dropMany f (setStrong h i 0) rest
      | some n =>
        let h1 := removeNode (setStrong h i 0) i
        let h2 := n.parents.foldl decWeak (decWeak h1 n.endNode)
        dropMany f h2 (n.children.filterMap id ++ rest)
    | s+2 => dropMany f (setStrong h i (s+1)) rest

/-- Drop one strong reference to `i`. -/
def dropStrong (h : Heap) (i : Nat) : Heap := dropMany ((h.nodes.length + 1) * 32) h [i]

/-- `Weak::upgrade`: a fresh strong reference, provided the referent is still
alive. -/
def upgradeW (h : Heap) (i : Nat) : Option (Heap × Nat) :=
  if 0 < strongOf h i then some (incStrong h i, i) else none

/-- `Rc::downgrade` on a live node (`Dawg::downgrade`). -/
def downgradeD (h : Heap) (i : Nat) : Heap × Nat := (incWeak h i, i)

/-- `Rc::get_mut(..)`, as used by `impl DerefMut for Dawg`
(`dawg/ptrs.rs:77`): exclusive access requires the sole strong reference and
no outstanding weak references. -/
def rcGetMut (h : Heap) (x : Nat) : Option DawgNode :=
  if strongOf h x = 1 ∧ weakOf h x = 0 then lookupNode h x else none

/-- Replace child slot `i` of node `x`. -/
def setSlot (h : Heap) (x i : Nat) (v : Option Nat) : Heap :=
  match lookupNode h x with
  | some n => { h with nodes := h.nodes.set x (some { n with children := n.children.set i v }) }
  | none => h

/-- `parents.insert(strong p)`: record a weak reference to `p` in `x`'s
parent set (the weak count of `p` is incremented by the caller). -/
def insertParent (h : Heap) (x p : Nat) : Heap :=
  match lookupNode h x with
  | some n => { h with nodes := h.nodes.set x (some { n with parents := n.parents ++ [p] }) }
  | none => h

/-- `Dawg::end` (`dawg/ptrs.rs:151`): `Rc::new_cyclic` allocates the terminal
node holding a weak self-reference (weak count 1), `Rc::downgrade` takes a
second weak reference — and then the only strong `Rc`, a temporary, is
dropped at the end of the expression, deallocating the terminal.  The
returned weak reference is already dangling. -/
def dawgEnd (h : Heap) : Heap × Nat :=
  let i := h.nodes.length
  let h1 : Heap := ⟨h.nodes ++ [some ⟨i, List.replicate 27 none, []⟩],
                    h.strong ++ [1], h.weak ++ [1]⟩
  let h2 := incWeak h1 i
  (dropStrong h2 i, i)

/-- `Dawg::empty` (`dawg/ptrs.rs:159`): `from_args(end(), no children)` — the
weak end reference is moved into the record. -/
def dawgEmpty (h : Heap) : Heap × Nat :=
  let p := dawgEnd h
  allocNode p.1 ⟨p.2, List.replicate 27 none, []⟩

/-- `Dawg::add_end` (`dawg/ptrs.rs:163`): `let cloned = self.clone()` takes a
second strong reference, then `self.children[26] = self.end_node.upgrade()`
mutates `self` through `DerefMut`, i.e. `Rc::get_mut(&mut self.0).unwrap()` —
which panics (`none`) because `cloned` makes the strong count 2. -/
def dawgAddEnd : Heap × Nat → Option (Heap × Nat)
  | (h, m) =>
    let h1 := incStrong h m
    match lookupNode h1 m with
    | none => none
    | some n =>
      match upgradeW h1 n.endNode with
      | some (h2, e) =>
        if strongOf h2 m = 1 ∧ weakOf h2 m = 0 then
          let h3 := setSlot h2 m 26 (some e)
          if strongOf h3 e = 1 ∧ weakOf h3 e = 0 then
            some (dropStrong (incWeak (insertParent h3 e m) m) m, m)
          else none
        else none
      | none =>
        if strongOf h1 m = 1 ∧ weakOf h1 m = 0 then
          some (dropStrong (setSlot h1 m 26 none) m, m)
        else none

/-- The child array of `Dawg::word`'s non-empty case:
`array::from_fn(|i| letter.has_idx_unchecked(i).then(|| node.clone()))` over
all 27 slots.  `has_idx_unchecked(i)` indexes the letter's 26-element mask
directly, so slot 26 is an out-of-bounds access (`none` = index panic).
(The `dawg/word.rs` module itself is not under `src/`; the `Letter` it
provides is modelled from the spec: 26 booleans with `has_idx_unchecked`
performing an unchecked array access, matching `word/mod.rs`.) -/
def buildSlots (l : Letter) (nd k : Nat) : Option (List (Option Nat)) :=
  (List.range k).mapM fun i => (l.get? i).map fun b => if b then some nd else none

/-- `Dawg::word` (`dawg/ptrs.rs:172`): the empty word is
`Self::empty().add_end()`; a head letter builds the tail node, then
`from_args` with the tail node cloned into every accepted slot, then
`node.parents.insert(dawg.clone())` — which mutates `node` through `DerefMut`
and so requires exclusive access to a node that was just cloned into the
child slots. -/
def dawgWordD (h : Heap) : List Letter → Option (Heap × Nat)
  | [] => dawgAddEnd (dawgEmpty h)
  | l :: ls =>
    match dawgWordD h ls with
    | none => none
    | some (h1, nd) =>
      match lookupNode h1 nd with
      | none => none
      | some n =>
        let h2 := incWeak h1 n.endNode
        match buildSlots l nd 27 with
        | none => none
        | some slots =>
          let h3 := (slots.filterMap id).foldl incStrong h2
          let p := allocNode h3 ⟨n.endNode, slots, []⟩
          if strongOf p.1 nd = 1 ∧ weakOf p.1 nd = 0 then
            some (dropStrong (incWeak (insertParent p.1 nd p.2) p.2) nd, p.2)
          else none

/-- `Dawg::is_empty` (`dawg/ptrs.rs:195`): terminal slot unoccupied, and
*every* of the 26 symbol slots maps to a recursively empty child with
`map_or(false, ..)` — so an absent child makes the conjunction false.  Fuel
bounds the recursion depth through the heap. -/
def dawgIsEmpty (h : Heap) : Nat → Nat → Bool
  | 0, _ => false
  | f+1, x =>
    match lookupNode h x with
    | none => false
    | some n =>
      (n.children.getD 26 none).isNone &&
        (n.children.take 26).all fun c =>
          match c with
          | some cid => dawgIsEmpty h f cid
          | none => false

/-- `Dawg::eq_with` with `Rc::ptr_eq`, i.e. `Dawg::ptr_eq`
(`dawg/ptrs.rs:85,99`): the zipped child slots agree as pointers. -/
def eqWithPtr (c1 c2 : List (Option Nat)) : Bool :=
  (c1.zip c2).all fun p =>
    match p.1, p.2 with
    | some a, some b => a == b
    | none, none => true
    | _, _ => false

/-- `ptr_eq` lifted to heap ids. -/
def ptrEqD (h : Heap) (x y : Nat) : Bool :=
  match lookupNode h x, lookupNode h y with
  | some a, some b => eqWithPtr a.children b.children
  | _, _ => false

/-- `Dawg::find_eq` (`dawg/ptrs.rs:113`): take the first existing child, scan
that child's still-alive parents for one whose child slots are
pointer-for-pointer identical to `self`'s, and return it (a parent equal to
`self` itself also matches). -/
def findEq (h : Heap) (x : Nat) : Option Nat :=
  match lookupNode h x with
  | none => none
  | some n =>
    match n.children.findSome? id with
    | none => none
    | some c =>
      match lookupNode h c with
      | none => none
      | some cn =>
        (cn.parents.filter fun p => 0 < strongOf h p).find? fun p => ptrEqD h x p

/-- One iteration of `merge`'s loop for child slot `i` of node `x`: when the
slot holds a child and `find_eq` locates a twin, the twin (upgraded: one more
strong reference) replaces the owned child, whose strong reference is
dropped. -/
def mergeStep (h : Heap) (x i : Nat) : Heap :=
  match (lookupNode h x).bind fun n => n.children.getD i none with
  | some c =>
    match findEq h c with
    | some t => dropStrong (setSlot (incStrong h t) x i (some t)) c
    | none => h
  | none => h

/-- The `for child in self.children.iter_mut().flatten()` loop of `merge`. -/
def mergeGo : Heap → Nat → List Nat → Heap
  | h, _, [] => h
  | h, x, i :: is => mergeGo (mergeStep h x i) x is

/-- `Dawg::merge` (`dawg/ptrs.rs:122`): mutating `self.children` goes through
`DerefMut` (`Rc::get_mut(..).unwrap()`), then each child slot is replaced by
its `find_eq` twin when one exists.  The loop does not recurse into the
children. -/
def mergeD (h : Heap) (x : Nat) : Option Heap :=
  if strongOf h x = 1 ∧ weakOf h x = 0 then some (mergeGo h x (List.range 27))
  else none

/-- A 27-slot child array with a single occupied slot. -/
def slot1 (i v : Nat) : List (Option Nat) := (List.replicate 27 none).set i (some v)

/-- A concrete five-node graph for the merge claim:
id 0 = `X` (root, one outside strong holder) with child `A` at slot 1;
id 1 = `A` with child `B` at slot 0;
id 2 = `B` with child `D` at slot 0;
id 3 = `B2`, a structural twin of `B` (child `D` at slot 0, one outside
strong holder); id 4 = `D`, owned by both `B` and `B2`, whose parent set
records `B2`; id 5 = the dead terminal (every `end_node` points to it).
`B` is deliberately not registered in `D`'s parent set so that
`find_eq(B) = B2` does not depend on the hash-set iteration order. -/
def mergeHeap : Heap :=
  ⟨[some ⟨5, slot1 1 1, []⟩,
    some ⟨5, slot1 0 2, []⟩,
    some ⟨5, slot1 0 4, [1]⟩,
    some ⟨5, slot1 0 4, []⟩,
    some ⟨5, List.replicate 27 none, [3]⟩,
    none],
   [1, 1, 1, 1, 2, 0],
   [0, 1, 0, 1, 0, 5]⟩

/-! ### Theorems -/

/-- Helper: the diff loop maps all-absent children to all-absent children. -/
theorem diffKids_replicate_none (n : Nat) :
    diffKids (List.replicate n none) (List.replicate n none) = List.replicate n none := by
  induction n with
  | zero => simp [diffKids]
  | succ k ih => simp [List.replicate_succ, diffKids, ih]

/-- C1: the generic `diff`'s accepting flag is computed from the freshly
constructed empty tree (always `false`) instead of from `self`; with
`self = from_word("")` (accepting) and `other = empty()` (not accepting) the
claim demands an accepting result, but `diff` returns a non-accepting one.
The sibling implementation `trie_ptr::Trie::diff_assign` computes the
documented flag on the same input. -/
theorem c1_diff_accepting_flag_is_false :
    (diffT (fromWordT []) Trie.emptyT).isEnd = false ∧
    ((fromWordT []).isEnd && !Trie.emptyT.isEnd) = true ∧
    (diffAssignP (fromWordT []) Trie.emptyT).isEnd = true := by
  refine ⟨?_, ?_, ?_⟩
  · simp [fromWordT, diffT, Trie.emptyT, Trie.setEnd, Trie.isEnd]
  · rfl
  · rfl

/-- C3: `has_all` requires `self.is_end()` at the root, so for the pattern
`p = "a"` and the matching string `s = "a"` (both yielding a root that is not
accepting), `from_word(p).has_all(from_word(s))` is `false`, although every
accepting path of `from_word(s)` is an accepting path of `from_word(p)` (the
two nodes are identical). -/
theorem c3_has_all_fails_on_singleton :
    hasAllT (fromWordT [Letter.singL 0]) (fromWordT [Letter.singL 0]) = false ∧
    (fromWordT [Letter.singL 0]).isEnd = false := by
  constructor
  · have h : (fromWordT [Letter.singL 0]).isEnd = false := by
      simp [fromWordT, Letter.singL, letterIndices]
      rfl
    cases ht : fromWordT [Letter.singL 0] with
    | node e cs =>
      have : e = false := by rw [ht] at h; simpa [Trie.isEnd] using h
      simp [hasAllT, this]
  · simp [fromWordT, Letter.singL, letterIndices]
    rfl

/-- C2: for the node built from the pattern `"."` (which parses to the
all-26-symbols letter), `strings()` yields only `["a"]` and then stops —
not the 26 one-character strings `"a"`..`"z"` — because the `scan` closure
returns `None` at the first post-order event of the depth-first traversal,
which terminates Rust's `Scan` iterator.  Strings are lists of symbol
indices, so `"a"` is `[0]`. -/
theorem c2_strings_of_dot_yields_only_a :
    wordFromStrD [46] = some [Letter.allL] ∧
    stringsList (fromWordT [Letter.allL]) = [[0]] ∧
    stringsList (fromWordT [Letter.allL]) ≠ (List.range 26).map (fun i => [i]) := by
  refine ⟨by decide, by decide, by decide⟩

/-- C7: unparsing is not lossless.  For the letter `{b,c,d,f}` the buggy
`combine_into_ranges` drops the final accumulated range and re-emits the
initial singleton, producing `"[b-db]"`; parsing that text back yields
`{b,c,d}`, which is not the original symbol set (the symbol `f` is lost). -/
theorem c7_unparse_not_lossless :
    unparseLetterD bcdfLetter = [91, 98, 45, 100, 98, 93] ∧
    letterFromStr (unparseLetterD bcdfLetter) =
      some ((((List.replicate 26 false).set 1 true).set 2 true).set 3 true) ∧
    letterFromStr (unparseLetterD bcdfLetter) ≠ some bcdfLetter := by
  refine ⟨by decide, by decide, by decide⟩

/-! ### Parser consumption lemmas (for the `many0` totality argument) -/

theorem anycharP_len {i : List Nat} {c : Nat} {r : List Nat}
    (h : anycharP i = some (c, r)) : r.length < i.length := by
  cases i with
  | nil => simp [anycharP] at h
  | cons a t =>
    simp [anycharP] at h
    simp [h.2.symm]

theorem parseLowerChar_len {i : List Nat} {c : Nat} {r : List Nat}
    (h : parseLowerChar i = some (c, r)) : r.length < i.length := by
  unfold parseLowerChar at h
  split at h
  · next x heq =>
    split at h
    · cases h
      exact anycharP_len heq
    · cases h
  · cases h

theorem charTok_len {c : Nat} {i : List Nat} {d : Nat} {r : List Nat}
    (h : charTok c i = some (d, r)) : r.length < i.length := by
  unfold charTok at h
  split at h
  · split at h
    · cases h
      simp
    · cases h
  · cases h

theorem optLower_len {i : List Nat} {o : Option Nat} {r : List Nat}
    (h : optLower i = some (o, r)) : r.length ≤ i.length := by
  unfold optLower at h
  split at h
  · next c r2 heq =>
    cases h
    exact Nat.le_of_lt (parseLowerChar_len heq)
  · cases h
    exact Nat.le_refl _

theorem parseMultiCharRange_len {i : List Nat} {v : Nat × Nat} {r : List Nat}
    (h : parseMultiCharRange i = some (v, r)) : r.length < i.length := by
  unfold parseMultiCharRange at h
  split at h
  · next st r1 h1 =>
    split at h
    · next d r2 h2 =>
      split at h
      · next en r3 h3 =>
        cases h
        have := optLower_len h1
        have := charTok_len h2
        have := optLower_len h3
        omega
      · cases h
    · cases h
  · cases h

theorem parseSingleCharRange_len {i : List Nat} {v : Nat × Nat} {r : List Nat}
    (h : parseSingleCharRange i = some (v, r)) : r.length < i.length := by
  unfold parseSingleCharRange at h
  cases hp : parseLowerChar i with
  | none => rw [hp] at h; cases h
  | some x =>
    rw [hp] at h
    cases h
    exact parseLowerChar_len hp

theorem parseCharRange_len {i : List Nat} {v : Nat × Nat} {r : List Nat}
    (h : parseCharRange i = some (v, r)) : r.length < i.length := by
  unfold parseCharRange at h
  cases hm : parseMultiCharRange i with
  | none => rw [hm] at h; simp at h; exact parseSingleCharRange_len h
  | some x =>
    rw [hm] at h
    simp at h
    rw [h] at hm
    exact parseMultiCharRange_len hm

theorem many0RangesGo_len :
    ∀ (f : Nat) (i : List Nat) (rs : List (Nat × Nat)) (r : List Nat),
      many0RangesGo f i = some (rs, r) → r.length ≤ i.length := by
  intro f
  induction f with
  | zero => intro i rs r h; cases h
  | succ g ih =>
    intro i rs r h
    unfold many0RangesGo at h
    split at h
    · cases h
      exact Nat.le_refl _
    · next v rest heq =>
      split at h
      · cases hg : many0RangesGo g rest with
        | none => rw [hg] at h; cases h
        | some x =>
          rw [hg] at h
          cases h
          exact Nat.le_trans (ih rest x.1 x.2 hg) (Nat.le_of_lt (parseCharRange_len heq))
      · cases h

theorem many1Ranges_len {i : List Nat} {rs : List (Nat × Nat)} {r : List Nat}
    (h : many1Ranges i = some (rs, r)) : r.length < i.length := by
  unfold many1Ranges at h
  split at h
  · cases h
  · next v rest heq =>
    split at h
    · next hlt =>
      cases hg : many0RangesGo (rest.length + 1) rest with
      | none => rw [hg] at h; cases h
      | some x =>
        rw [hg] at h
        cases h
        exact Nat.lt_of_le_of_lt (many0RangesGo_len _ _ _ _ hg) hlt
    · cases h

theorem parseGroupLetter_len {i : List Nat} {l : Letter} {r : List Nat}
    (h : parseGroupLetter i = some (l, r)) : r.length < i.length := by
  unfold parseGroupLetter at h
  split at h
  · next rs rest heq =>
    cases ht : tryFromIter (rs.map rangeChars).flatten with
    | none => rw [ht] at h; cases h
    | some x =>
      rw [ht] at h
      cases h
      exact many1Ranges_len heq
  · cases h

theorem parseLetterD_len {i : List Nat} {l : Letter} {r : List Nat}
    (h : parseLetterD i = some (l, r)) : r.length < i.length := by
  unfold parseLetterD at h
  cases hd : parseDotLetter i with
  | some x =>
    rw [hd] at h
    simp at h
    unfold parseDotLetter at hd
    cases hc : charTok 46 i with
    | none => rw [hc] at hd; cases hd
    | some y =>
      rw [hc] at hd
      simp at hd
      subst h
      simp at hd
      rw [← hd.2]
      exact charTok_len hc
  | none =>
    rw [hd] at h
    simp at h
    cases hch : parseCharLetter i with
    | some x =>
      rw [hch] at h
      simp at h
      unfold parseCharLetter at hch
      cases hp : parseLowerChar i with
      | none => rw [hp] at hch; cases hch
      | some y =>
        rw [hp] at hch
        simp at hch
        obtain ⟨a, _, hax⟩ := hch
        subst h
        simp at hax
        rw [← hax.2]
        exact parseLowerChar_len hp
    | none =>
      rw [hch] at h
      simp at h
      split at h
      · next d r1 h1 =>
        split at h
        · next l2 r2 h2 =>
          split at h
          · next d2 r3 h3 =>
            cases h
            have := charTok_len h1
            have := parseGroupLetter_len h2
            have := charTok_len h3
            omega
          · cases h
        · cases h
      · cases h

theorem many0LettersGo_isSome :
    ∀ (f : Nat) (i : List Nat), i.length < f → (many0LettersGo f i).isSome := by
  intro f
  induction f with
  | zero => intro i hi; omega
  | succ g ih =>
    intro i hi
    unfold many0LettersGo
    split
    · simp
    · next v rest heq =>
      split
      · next hlt =>
        have hr : rest.length < g := by
          have := parseLetterD_len heq
          omega
        have hs := ih rest hr
        cases hg : many0LettersGo g rest with
        | none => simp [hg] at hs
        | some x => simp [hg]
      · next hnlt =>
        exact absurd (parseLetterD_len heq) hnlt

/-- C8 (amended): `Word::from_str` never fails.  `parse_word` is
`many0(parse_letter)`, which stops at the first unparsable position, and
`from_str` discards the unconsumed remainder, so every input — including ones
containing unrecognized characters, unmatched brackets, or non-lowercase
characters — parses successfully to the word formed by its longest valid
prefix. -/
theorem c8_word_from_str_total : ∀ i : List Nat, (wordFromStrD i).isSome := by
  intro i
  unfold wordFromStrD parseWordD
  have h := many0LettersGo_isSome (i.length + 1) i (by omega)
  cases hg : many0LettersGo (i.length + 1) i with
  | none => rw [hg] at h; cases h
  | some x => simp

/-- C8 (counterexample): parsing does silently succeed on a prefix.  The
input `"a!"` (`!` is an unrecognized character) parses to the one-letter word
`"a"`, and the input `"[ab"` (unmatched bracket) parses to the empty word;
neither reports an error, contradicting the claim that such inputs fail with
a syntax error. -/
theorem c8_silent_prefix_success :
    wordFromStrD [97, 33] = some [Letter.singL 0] ∧
    wordFromStrD [91, 97, 98] = some [] := by
  refine ⟨by decide, by decide⟩

/-- Helper: the `is_empty` children loop is true on an all-absent child list. -/
theorem isEmptyKids_replicate (n : Nat) :
    isEmptyKids (List.replicate n none) = true := by
  induction n with
  | zero => simp [isEmptyKids]
  | succ k ih => simp [List.replicate_succ, isEmptyKids, ih]

/-- C4: `Dawg::word` on the zero-length word does not return a node with the
terminal slot occupied.  `Dawg::end` drops the only strong reference to the
terminal at the end of the expression, so the node is already dead (strong
count 0) and upgrading the weak reference fails; and `add_end` panics anyway,
because it clones `self` (strong count 2) and then mutates through `DerefMut`
(`Rc::get_mut(..).unwrap()`). -/
theorem c4_word_empty_terminal_slot :
    strongOf (dawgEnd initHeap).1 (dawgEnd initHeap).2 = 0 ∧
    upgradeW (dawgEnd initHeap).1 (dawgEnd initHeap).2 = none ∧
    dawgWordD initHeap [] = none := by
  refine ⟨by decide, by decide, by decide⟩

/-- C6: `trie_ptr::Trie::is_empty` is true on `empty()` (no children, not
accepting), but `Dawg::is_empty` on the node returned by `Dawg::empty()` is
false: its children loop uses `map_or(false, ..)`, so each of the 26 absent
children makes the conjunction false. -/
theorem c6_empty_node_is_empty :
    Trie.isEmptyP Trie.emptyT = true ∧
    dawgIsEmpty (dawgEmpty initHeap).1 2 (dawgEmpty initHeap).2 = false := by
  constructor
  · rw [show Trie.emptyT = Trie.node false (List.replicate 26 none) from rfl]
    rw [Trie.isEmptyP]
    rw [isEmptyKids_replicate]
    rfl
  · decide

/-- C10 (counterexample): a node holding the sole strong reference, with one
weak reference outstanding (here produced by `Dawg::empty()` followed by
`downgrade()`), cannot be mutated: `Rc::get_mut` returns `None` and the
`DerefMut` implementation panics — although the claim says `deref_mut`
succeeds whenever the caller holds the sole strong reference. -/
theorem c10_sole_strong_get_mut_fails :
    strongOf (downgradeD (dawgEmpty initHeap).1 (dawgEmpty initHeap).2).1
      (dawgEmpty initHeap).2 = 1 ∧
    weakOf (downgradeD (dawgEmpty initHeap).1 (dawgEmpty initHeap).2).1
      (dawgEmpty initHeap).2 = 1 ∧
    rcGetMut (downgradeD (dawgEmpty initHeap).1 (dawgEmpty initHeap).2).1
      (dawgEmpty initHeap).2 = none := by
  refine ⟨by decide, by decide, by decide⟩

/-- C10 (amended): in-place mutable access through `DerefMut` succeeds iff
the node is alive with exactly one strong reference *and* no outstanding weak
references; in particular it fails fast both when more than one strong owner
exists and when a sole-strong node is weakly referenced. -/
theorem c10_get_mut_characterization :
    ∀ (h : Heap) (x : Nat),
      (rcGetMut h x).isSome ↔
        (strongOf h x = 1 ∧ weakOf h x = 0 ∧ (lookupNode h x).isSome) := by
  intro h x
  unfold rcGetMut
  split
  · next hc => simp [hc]
  · next hc =>
    simp only [Option.isSome_none, Bool.false_eq_true, false_iff]
    intro hcon
    exact hc ⟨hcon.1, hcon.2.1⟩

/-- C5 (counterexample): `merge` does not recurse.  On `mergeHeap`,
`merge(X)` returns the heap unchanged, yet the descendant `A` (child of `X`)
still owns `B` at slot 0 while `find_eq(B)` locates the structural twin `B2`
— so `A` has not itself been merged after `merge(X)` returns. -/
theorem c5_merge_leaves_descendants_unmerged :
    mergeD mergeHeap 0 = some mergeHeap ∧
    ((lookupNode mergeHeap 1).map fun n => n.children.getD 0 none) = some (some 2) ∧
    findEq mergeHeap 2 = some 3 ∧ (3 : Nat) ≠ 2 := by
  refine ⟨by decide, by decide, by decide, by decide⟩

theorem lookupNode_setStrong (h : Heap) (i n y : Nat) :
    lookupNode (setStrong h i n) y = lookupNode h y := rfl

theorem lookupNode_incStrong (h : Heap) (i y : Nat) :
    lookupNode (incStrong h i) y = lookupNode h y := rfl

theorem lookupNode_decWeak (h : Heap) (i y : Nat) :
    lookupNode (decWeak h i) y = lookupNode h y := rfl

theorem lookupNode_foldl_decWeak (ps : List Nat) :
    ∀ (h : Heap) (y : Nat), lookupNode (ps.foldl decWeak h) y = lookupNode h y := by
  induction ps with
  | nil => intro h y; rfl
  | cons p rest ih =>
    intro h y
    simpa [List.foldl_cons, lookupNode_decWeak] using ih (decWeak h p) y

theorem lookupNode_removeNode (h : Heap) (i y : Nat) {n : DawgNode}
    (hl : lookupNode (removeNode h i) y = some n) : lookupNode h y = some n := by
  unfold lookupNode removeNode at *
  by_cases hiy : i = y
  · subst hiy
    rcases Nat.lt_or_ge i h.nodes.length with hlt | hge
    · rw [List.getD_eq_getElem?_getD, List.getElem?_set_self hlt] at hl
      simp at hl
    · rw [List.getD_eq_getElem?_getD, List.set_eq_of_length_le hge] at hl
      rw [List.getD_eq_getElem?_getD]
      exact hl
  · rw [List.getD_eq_getElem?_getD, List.getElem?_set_ne hiy] at hl
    rw [List.getD_eq_getElem?_getD]
    exact hl

theorem lookupNode_dropMany :
    ∀ (f : Nat) (h : Heap) (l : List Nat) (y : Nat) {n : DawgNode},
      lookupNode (dropMany f h l) y = some n → lookupNode h y = some n := by
  intro f
  induction f with
  | zero => intro h l y n hl; exact hl
  | succ g ih =>
    intro h l y n hl
    cases l with
    | nil => exact hl
    | cons i rest =>
      unfold dropMany at hl
      split at hl
      · exact ih _ _ _ hl
      · split at hl
        · have := ih _ _ _ hl
          rwa [lookupNode_setStrong] at this
        · next nd _ =>
          have h2 := ih _ _ _ hl
          rw [lookupNode_foldl_decWeak, lookupNode_decWeak] at h2
          have h3 := lookupNode_removeNode _ _ _ h2
          rwa [lookupNode_setStrong] at h3
      · have := ih _ _ _ hl
        rwa [lookupNode_setStrong] at this

theorem lookupNode_dropStrong (h : Heap) (i y : Nat) {n : DawgNode}
    (hl : lookupNode (dropStrong h i) y = some n) : lookupNode h y = some n :=
  lookupNode_dropMany _ _ _ _ hl

theorem lookupNode_setSlot_ne (h : Heap) (x i y : Nat) (v : Option Nat)
    (hxy : y ≠ x) : lookupNode (setSlot h x i v) y = lookupNode h y := by
  unfold setSlot
  split
  · unfold lookupNode
    simp only
    rw [List.getD_eq_getElem?_getD, List.getElem?_set_ne (fun hc => hxy hc.symm),
      ← List.getD_eq_getElem?_getD]
  · rfl

theorem lookupNode_mergeStep (h : Heap) (x i y : Nat) {n : DawgNode}
    (hxy : y ≠ x) (hl : lookupNode (mergeStep h x i) y = some n) :
    lookupNode h y = some n := by
  unfold mergeStep at hl
  split at hl
  · split at hl
    · have h2 := lookupNode_dropStrong _ _ _ hl
      rw [lookupNode_setSlot_ne _ _ _ _ _ hxy, lookupNode_incStrong] at h2
      exact h2
    · exact hl
  · exact hl

theorem lookupNode_mergeGo :
    ∀ (l : List Nat) (h : Heap) (x y : Nat) {n : DawgNode}, y ≠ x →
      lookupNode (mergeGo h x l) y = some n → lookupNode h y = some n := by
  intro l
  induction l with
  | nil => intro h x y n _ hl; exact hl
  | cons i rest ih =>
    intro h x y n hxy hl
    exact lookupNode_mergeStep _ _ _ _ hxy (ih _ _ _ hxy hl)

/-- C5 (amended): `merge(node)` is a single-level pass.  It acquires
exclusive access to the node, and then only replaces the node's own child
slots with `find_eq` twins; it does not recurse, so the record of every other
node that survives the pass — in particular every descendant — is exactly
what it was before the merge (only reference counts change, and replaced
children may be deallocated). -/
theorem mergeD_eq_mergeGo (h : Heap) (x : Nat) (h2 : Heap)
    (hm : mergeD h x = some h2) : h2 = mergeGo h x (List.range 27) := by
  unfold mergeD at hm
  split at hm
  · exact (Option.some.inj hm).symm
  · exact absurd hm (by simp)

theorem c5_merge_modifies_only_the_node :
    ∀ (h : Heap) (x : Nat) (h2 : Heap) (y : Nat) (n : DawgNode),
      mergeD h x = some h2 → y ≠ x → lookupNode h2 y = some n →
      lookupNode h y = some n := by
  intro h x h2 y n hm hxy hl
  rw [mergeD_eq_mergeGo h x h2 hm] at hl
  exact lookupNode_mergeGo _ _ _ _ hxy hl

/-- Witness for the merge frame theorem at the concrete graph: after
`merge(X)` on `mergeHeap`, node `A` (id 1) still carries its original record. -/
theorem c5_merge_frame_witness :
    lookupNode mergeHeap 1 = some ⟨5, slot1 0 2, []⟩ :=
  c5_merge_modifies_only_the_node mergeHeap 0 mergeHeap 1 ⟨5, slot1 0 2, []⟩
    (by decide) (by decide) (by decide)


/-! ### The `trie_ptr` iterator lemmas (C9) -/

theorem trieNext_node_true (cs : List (Option Trie)) :
    trieNext (Trie.node true cs) = (some [], Trie.node false cs) := by
  simp [trieNext]

theorem trieNext_node_false (cs : List (Option Trie)) :
    trieNext (Trie.node false cs) =
      ((trieNextKids 0 cs).1, Trie.node false (trieNextKids 0 cs).2) := by
  cases hp : trieNextKids 0 cs with
  | mk r cs2 => simp [trieNext, hp]

theorem trieNextKids_nil (i : Nat) :
    trieNextKids i ([] : List (Option Trie)) = (none, []) := by
  simp [trieNextKids]

theorem trieNextKids_cons_none (i : Nat) (rest : List (Option Trie)) :
    trieNextKids i (none :: rest) =
      ((trieNextKids (i+1) rest).1, none :: (trieNextKids (i+1) rest).2) := by
  cases hp : trieNextKids (i+1) rest with
  | mk r rest2 => simp [trieNextKids, hp]

theorem trieNextKids_cons_yield {t : Trie} {s : List Nat} {t2 : Trie}
    (i : Nat) (rest : List (Option Trie)) (h : trieNext t = (some s, t2)) :
    trieNextKids i (some t :: rest) = (some (i :: s), some t2 :: rest) := by
  simp [trieNextKids, h]

theorem trieNextKids_cons_skip {t t2 : Trie}
    (i : Nat) (rest : List (Option Trie)) (h : trieNext t = (none, t2)) :
    trieNextKids i (some t :: rest) =
      ((trieNextKids (i+1) rest).1, some t2 :: (trieNextKids (i+1) rest).2) := by
  cases hp : trieNextKids (i+1) rest with
  | mk r rest2 => simp [trieNextKids, h, hp]

theorem trieNext_spec : ∀ t : Trie, nextM1 t := by
  refine trieNext.induct nextM1 nextM2 ?_ ?_ ?_ ?_ ?_ ?_
  · intro cs
    constructor
    · intro h
      rw [trieNext_node_true] at h
      simp at h
    · intro s t2 h
      rw [trieNext_node_true] at h
      simp at h
      rw [← h.2]
      simp [endCount]
      omega
  · intro e cs hne r cs2 hk ih
    have he : e = false := by
      cases e with
      | false => rfl
      | true => exact absurd rfl hne
    subst he
    have hx := trieNext_node_false cs
    rw [hk] at hx
    obtain ⟨ih1, ih2⟩ := ih
    constructor
    · intro h
      rw [hx] at h
      simp at h
      subst h
      have h1 := ih1 (by rw [hk])
      rw [hk] at h1
      simp at h1
      rw [hx]
      simp [h1.1, endCount, h1.2]
    · intro s t2 h
      rw [hx] at h
      simp at h
      have h2 := ih2 s cs2 (by rw [hk, h.1])
      rw [← h.2]
      simp [endCount]
      omega
  · intro x
    constructor
    · intro _
      rw [trieNextKids_nil]
      simp [endCountKids]
    · intro s cs2 h
      rw [trieNextKids_nil] at h
      simp at h
  · intro i rest r cs2 hk ih
    obtain ⟨ih1, ih2⟩ := ih
    have hx := trieNextKids_cons_none i rest
    rw [hk] at hx
    constructor
    · intro h
      rw [hx] at h
      simp at h
      subst h
      have h1 := ih1 (by rw [hk])
      rw [hk] at h1
      simp at h1
      rw [hx]
      simp [h1.1, endCountKids, h1.2]
    · intro s cs2b h
      rw [hx] at h
      simp at h
      have h2 := ih2 s cs2 (by rw [hk, h.1])
      rw [← h.2]
      simp [endCountKids]
      omega
  · intro i t rest s t2 ht ih
    constructor
    · intro h
      rw [trieNextKids_cons_yield i rest ht] at h
      simp at h
    · intro s2 cs2 h
      rw [trieNextKids_cons_yield i rest ht] at h
      simp at h
      have hc := ih.2 s t2 ht
      rw [← h.2]
      simp [endCountKids]
      omega
  · intro i t rest t2 ht r cs2 hk ih1 ih2
    have hfix := ih1.1 (by rw [ht])
    rw [ht] at hfix
    simp at hfix
    obtain ⟨hteq, htz⟩ := hfix
    subst hteq
    have hx := trieNextKids_cons_skip i rest ht
    rw [hk] at hx
    constructor
    · intro h
      rw [hx] at h
      simp at h
      subst h
      have h1 := ih2.1 (by rw [hk])
      rw [hk] at h1
      simp at h1
      rw [hx]
      simp [h1.1, endCountKids, h1.2, htz]
    · intro s cs2b h
      rw [hx] at h
      simp at h
      have h2 := ih2.2 s cs2 (by rw [hk, h.1])
      rw [← h.2]
      simp [endCountKids, htz]
      omega

theorem trieNext_none_fix (t : Trie) (h : (trieNext t).1 = none) :
    (trieNext t).2 = t ∧ endCount t = 0 := (trieNext_spec t).1 h

theorem trieNext_some_count {t : Trie} {s : List Nat} {t2 : Trie}
    (h : trieNext t = (some s, t2)) : endCount t = endCount t2 + 1 :=
  (trieNext_spec t).2 s t2 h

theorem isEmptyP_iff_endCount : ∀ t : Trie, emptyM1 t := by
  refine endCount.induct emptyM1 emptyM2 ?_ ?_ ?_ ?_
  · intro e cs ih
    have j : isEmptyKids cs = true ↔ endCountKids cs = 0 := ih
    cases e with
    | false => simp [emptyM1, Trie.isEmptyP, endCount, j]
    | true => simp [emptyM1, Trie.isEmptyP, endCount]
  · simp [emptyM2, isEmptyKids, endCountKids]
  · intro rest ih
    have j : isEmptyKids rest = true ↔ endCountKids rest = 0 := ih
    simp [emptyM2, isEmptyKids, endCountKids, j]
  · intro t rest ih1 ih2
    have j1 : Trie.isEmptyP t = true ↔ endCount t = 0 := ih1
    have j2 : isEmptyKids rest = true ↔ endCountKids rest = 0 := ih2
    simp [emptyM2, isEmptyKids, endCountKids, j1, j2]

theorem runNext_succ_none {t t2 : Trie} (f : Nat) (h : trieNext t = (none, t2)) :
    runNext (f+1) t = ([], t2) := by
  simp [runNext, h]

theorem runNext_succ_some {t : Trie} {s : List Nat} {t2 : Trie} (f : Nat)
    (h : trieNext t = (some s, t2)) :
    runNext (f+1) t = (s :: (runNext f t2).1, (runNext f t2).2) := by
  cases hp : runNext f t2 with
  | mk a b => simp [runNext, h, hp]

theorem runNext_count :
    ∀ (f : Nat) (t : Trie), endCount t ≤ f → endCount (runNext f t).2 = 0 := by
  intro f
  induction f with
  | zero =>
    intro t h
    simp [runNext]
    omega
  | succ g ih =>
    intro t h
    cases hn : trieNext t with
    | mk r t2 =>
      cases r with
      | none =>
        have hfix := trieNext_none_fix t (by rw [hn])
        rw [hn] at hfix
        simp at hfix
        have hr : runNext (g+1) t = ([], t2) := by simp [runNext, hn]
        rw [hr]
        simp [hfix.1, hfix.2]
      | some s =>
        have hc := trieNext_some_count hn
        have hr : runNext (g+1) t = (s :: (runNext g t2).1, (runNext g t2).2) := by
          simp [runNext, hn]
        rw [hr]
        exact ih t2 (by omega)

/-- C9 (amended): membership queries borrow the trie immutably and the
generic `strings()` works on shared references, but the `trie_ptr`
`Iterator::next(&mut self)` mutates the trie: every produced string clears
the `is_end` flag it came from, so a complete enumeration leaves the trie
containing *no* words (`is_empty`) rather than leaving it unchanged. -/
theorem c9_complete_enumeration_empties_the_trie :
    ∀ t : Trie, Trie.isEmptyP (runNext (endCount t) t).2 = true := by
  intro t
  exact (isEmptyP_iff_endCount _).mpr (runNext_count (endCount t) t (Nat.le_refl _))

/-- Helper: pulling from an all-absent child list finds nothing and keeps it
unchanged. -/
theorem trieNextKids_replicate_none : ∀ (n i : Nat),
    trieNextKids i (List.replicate n none) = (none, List.replicate n none) := by
  intro n
  induction n with
  | zero => intro i; exact trieNextKids_nil i
  | succ k ih =>
    intro i
    rw [List.replicate_succ, trieNextKids_cons_none, ih]

/-- C9 (counterexample): enumeration is not read-only.  For the trie built
from the single word `"a"`, the iterator yields `["a"]` (the index string
`[0]`), and afterwards the node differs from the original: the child at
symbol `a` has had its `is_end` flag cleared in place. -/
theorem c9_iterator_mutates_counterexample :
    (runNext 2 (trieWordP [Letter.singL 0])).1 = [[0]] ∧
    ((runNext 2 (trieWordP [Letter.singL 0])).2.getChild 0).map Trie.isEnd = some false ∧
    ((trieWordP [Letter.singL 0]).getChild 0).map Trie.isEnd = some true ∧
    (runNext 2 (trieWordP [Letter.singL 0])).2 ≠ trieWordP [Letter.singL 0] := by
  have e0 : trieWordP [Letter.singL 0] =
      Trie.node false
        (some (Trie.node true (List.replicate 26 none)) :: List.replicate 25 none) := by
    rfl
  have hb : trieNext (Trie.node false (List.replicate 26 none)) =
      (none, Trie.node false (List.replicate 26 none)) := by
    rw [trieNext_node_false, trieNextKids_replicate_none]
  have hc : trieNext (trieWordP [Letter.singL 0]) =
      (some [0], Trie.node false
        (some (Trie.node false (List.replicate 26 none)) :: List.replicate 25 none)) := by
    rw [e0, trieNext_node_false,
      trieNextKids_cons_yield 0 (List.replicate 25 none) (trieNext_node_true _)]
  have hd : trieNext (Trie.node false
      (some (Trie.node false (List.replicate 26 none)) :: List.replicate 25 none)) =
      (none, Trie.node false
        (some (Trie.node false (List.replicate 26 none)) :: List.replicate 25 none)) := by
    rw [trieNext_node_false, trieNextKids_cons_skip 0 (List.replicate 25 none) hb,
      trieNextKids_replicate_none]
  have r1 : runNext 1 (Trie.node false
      (some (Trie.node false (List.replicate 26 none)) :: List.replicate 25 none)) =
      ([], Trie.node false
        (some (Trie.node false (List.replicate 26 none)) :: List.replicate 25 none)) :=
    runNext_succ_none 0 hd
  have h1 : runNext 2 (trieWordP [Letter.singL 0]) =
      ([[0]], Trie.node false
        (some (Trie.node false (List.replicate 26 none)) :: List.replicate 25 none)) := by
    have h2 := runNext_succ_some 1 hc
    rw [r1] at h2
    exact h2
  refine ⟨by rw [h1], by rw [h1]; rfl, by rw [e0]; rfl, ?_⟩
  intro heq
  have h2 := congrArg (fun t => (Trie.getChild t 0).map Trie.isEnd) heq
  rw [h1, e0] at h2
  simp [Trie.getChild, Trie.children, Trie.isEnd] at h2

/-- Witness instantiating the `Word::from_str` totality theorem at the
concrete input `"a!"`. -/
theorem c8_word_from_str_total_witness : (wordFromStrD [97, 33]).isSome :=
  c8_word_from_str_total [97, 33]

/-- Witness instantiating the enumeration theorem at the trie of the single
word `"a"`. -/
theorem c9_enumeration_witness :
    Trie.isEmptyP (runNext (endCount (trieWordP [Letter.singL 0]))
      (trieWordP [Letter.singL 0])).2 = true :=
  c9_complete_enumeration_empties_the_trie (trieWordP [Letter.singL 0])

/-- Witness instantiating the `Rc::get_mut` characterization at the node made
by `Dawg::empty()`. -/
theorem c10_get_mut_witness :
    (rcGetMut (dawgEmpty initHeap).1 (dawgEmpty initHeap).2).isSome ↔
      (strongOf (dawgEmpty initHeap).1 (dawgEmpty initHeap).2 = 1 ∧
        weakOf (dawgEmpty initHeap).1 (dawgEmpty initHeap).2 = 0 ∧
        (lookupNode (dawgEmpty initHeap).1 (dawgEmpty initHeap).2).isSome) :=
  c10_get_mut_characterization (dawgEmpty initHeap).1 (dawgEmpty initHeap).2

end Scrabble
